import Mathlib

/-!
# Verification of the lunchy-go service-resolution engine

Shallow embedding of `lunchy.go`. The program shells out to external
commands (`find`, `launchctl`), reads files and the environment; those
effects are modelled as explicit parameters:

* the raw standard output of the `find` command (`Option String`,
  `none` = the command failed);
* the outcome of `launchctl load`/`unload` per descriptor name
  (`LaunchEnv`);
* file contents as a partial map `FS : String → Option String`;
* fallible `os.Remove` as a Boolean oracle.

Pure string manipulation (`filepath.Base`, `strings.Replace` with
count 1, `strings.Index`, `strings.Split`, `strings.TrimSpace`) is
translated directly.  Go's `s[0]` on an empty string is a runtime
panic; functions that can panic return `Option`, with `none` for the
panic.
-/

namespace Lunchy

/-- The characters of the fixed descriptor extension `".plist"`. -/
def plistExt : List Char := ['.', 'p', 'l', 'i', 's', 't']

/-- The ASCII white-space test of Go's `unicode.IsSpace` (the inputs
here are `find` output and profile text, which are ASCII). -/
def isSpaceB (c : Char) : Bool :=
  c == ' ' || c == '\t' || c == '\n' || c == '\r' ||
    c == Char.ofNat 11 || c == Char.ofNat 12

/-- `strings.TrimSpace` on a character list. -/
def trimL (cs : List Char) : List Char :=
  ((cs.dropWhile isSpaceB).reverse.dropWhile isSpaceB).reverse

/-- `strings.Split(s, sep)` for a one-character separator:
`Split("", sep) = [""]`, and every occurrence of `sep` starts a new
piece. -/
def splitOnCharL (sep : Char) : List Char → List (List Char)
  | [] => [[]]
  | c :: rest =>
    let r := splitOnCharL sep rest
    if c == sep then [] :: r
    else
      match r with
      | [] => [[c]]
      | h :: t => (c :: h) :: t

/-- Strict lexicographic comparison of character lists (the order
`sort.Strings` and the spec's "sorted lexicographically" refer to). -/
def lexLtL : List Char → List Char → Bool
  | [], [] => false
  | [], _ :: _ => true
  | _ :: _, [] => false
  | a :: as, b :: bs =>
    if a < b then true
    else if b < a then false
    else lexLtL as bs

/-- Strict lexicographic order on strings. -/
def strLtB (a b : String) : Bool := lexLtL a.data b.data

/-- Lexicographic order on strings. -/
def strLeB (a b : String) : Bool := strLtB a b || a == b

/-- A list of names is sorted lexicographically. -/
def SortedLex (l : List String) : Prop :=
  List.Pairwise (fun a b => strLeB a b = true) l

/-- `filepath.Base` on the character list of a path: `Base("") = "."`;
otherwise trailing slashes are dropped, and the part after the last
slash is returned (`"/"` when everything was slashes). -/
def basenameL (cs : List Char) : List Char :=
  if cs.isEmpty then ['.']
  else if (cs.reverse.dropWhile (fun c => c == '/')).isEmpty then ['/']
  else ((cs.reverse.dropWhile (fun c => c == '/')).takeWhile (fun c => c != '/')).reverse

/-- `strings.Replace(s, pat, "", 1)` on character lists: remove the
first (leftmost) occurrence of `pat`, if any. -/
def removeFirstL (pat : List Char) : List Char → List Char
  | [] => []
  | c :: rest =>
    if pat.isPrefixOf (c :: rest) then (c :: rest).drop pat.length
    else c :: removeFirstL pat rest

/-- `strings.Index(s, sub) != -1` on character lists: `sub` occurs as a
contiguous substring of `s` (the empty `sub` always occurs). -/
def hasSubstrL (sub : List Char) : List Char → Bool
  | [] => sub.isEmpty
  | c :: t => sub.isPrefixOf (c :: t) || hasSubstrL sub t

/-- `strings.Index(s, sub) != -1` : `s` contains `sub`. -/
def containsSub (s sub : String) : Bool :=
  hasSubstrL sub.data s.data

/-- The logical name derived from one `find` output line (as a
character list): `strings.Replace(filepath.Base(line), ".plist", "", 1)`. -/
def logicalNameL (line : List Char) : String :=
  String.mk (removeFirstL plistExt (basenameL line))

/-- The logical name derived from one `find` output line. -/
def logicalName (line : String) : String :=
  logicalNameL line.data

/-- `filepath.Join(os.Getenv("HOME"), "Library", "LaunchAgents")`,
parameterized by the value of `HOME`. -/
def launchAgentsPath (home : String) : String :=
  home ++ "/Library/LaunchAgents"

/-- `pPath`: the descriptor file path computed from a logical name. -/
def pPath (home n : String) : String :=
  launchAgentsPath home ++ "/" ++ n ++ ".plist"

/-- `findPlists`, parameterized by the outcome of
`exec.Command("find", "-L", path, ...).Output()`: `none` means the
command returned an error (result `nil`); otherwise the output is
trimmed, split on newlines, and each line is mapped to its logical
name, in output order. -/
def findPlists (findOutput : Option String) : List String :=
  match findOutput with
  | none => []
  | some out =>
    let lines := splitOnCharL '\n' (trimL out.data)
    lines.foldl (fun plists line => plists ++ [logicalNameL line]) []

/-- The first-match loop shared by `getPlist`, `showPlist` and
`editPlist`: the first catalog entry containing `name`, or `""`. -/
def firstMatch : List String → String → String
  | [], _ => ""
  | p :: rest, name => if containsSub p name then p else firstMatch rest name

/-- `getPlist`: first match over the catalog discovered from the fixed
root (the catalog is `findPlists` of the `find` output). -/
def getPlist (findOutput : Option String) (name : String) : String :=
  firstMatch (findPlists findOutput) name

/-- `sliceIncludes`: membership by string equality. -/
def sliceIncludes (slice : List String) (m : String) : Bool :=
  slice.any (fun v => v == m)

/-- Outcome of the external `launchctl load` / `launchctl unload`
calls, per descriptor name (the path passed is `pPath` of the name,
which determines the name). -/
structure LaunchEnv where
  loadOk : String → Bool
  unloadOk : String → Bool

/-- One console line printed by the lifecycle functions. -/
inductive Msg where
  | started (name : String)
  | startFailed (name : String)
  | stopped (name : String)
  | stopFailed (name : String)
  deriving DecidableEq, Repr

/-- `startDaemon`: one `launchctl load`; on error prints
`failed to start` and returns, else prints `started`. -/
def startDaemon (env : LaunchEnv) (name : String) : List Msg :=
  if env.loadOk name then [Msg.started name] else [Msg.startFailed name]

/-- `stopDaemon`: one `launchctl unload`; on error prints
`failed to stop` and returns (the error is not propagated), else
prints `stopped`. -/
def stopDaemon (env : LaunchEnv) (name : String) : List Msg :=
  if env.unloadOk name then [Msg.stopped name] else [Msg.stopFailed name]

/-- The `switch action` body of `plistsAction`: `start`, `stop`, or
`restart` (= `stopDaemon` then `startDaemon`); anything else is a
no-op. -/
def applyAction (env : LaunchEnv) (action : String) (name : String) : List Msg :=
  match action with
  | "start" => startDaemon env name
  | "stop" => stopDaemon env name
  | "restart" => stopDaemon env name ++ startDaemon env name
  | _ => []

/-- The inner loop of `plistsAction`: apply the action to every
catalog entry containing `name`, in catalog order, accumulating
console output. -/
def dispatchMatches (env : LaunchEnv) (action : String) (name : String)
    (catalog : List String) (acc : List Msg) : List Msg :=
  catalog.foldl
    (fun acc2 plist =>
      acc2 ++ (if containsSub plist name then applyAction env action plist else []))
    acc

/-- `plistsAction`: for each fragment in order, dispatch on all its
catalog matches. -/
def plistsAction (env : LaunchEnv) (catalog : List String)
    (names : List String) (action : String) : List Msg :=
  names.foldl (fun acc name => dispatchMatches env action name catalog acc) []

/-- Sequenced action output over a list of descriptor names. -/
def appAll (env : LaunchEnv) (action : String) : List String → List Msg
  | [] => []
  | p :: rest => applyAction env action p ++ appAll env action rest

/-- `readProfile`, parameterized by the outcome of
`ioutil.ReadFile`: `none` means the read failed (the function returns
`nil`, modelled as `some []`).  On success the content is trimmed and
split on newlines; each line is trimmed; a line whose first byte is
`#` is skipped; accessing byte 0 of an empty trimmed line is a Go
runtime panic, modelled as the overall result `none`. -/
def readProfile (fileContent : Option String) : Option (List String) :=
  match fileContent with
  | none => some []
  | some c =>
    (splitOnCharL '\n' (trimL c.data)).foldl
      (fun acc l =>
        match acc with
        | none => none
        | some r =>
          match trimL l with
          | [] => none
          | ch :: rest =>
            if ch == '#' then some r
            else some (r ++ [String.mk (ch :: rest)]))
      (some [])

/-- Result of a single-target command: `fatal msg` = message on
stderr and `os.Exit(1)`; `ok (some p)` = the command acted on
descriptor `p` and the process exits 0; `ok none` = the command fell
through without acting and the process exits 0. -/
inductive CmdResult where
  | fatal (msg : String)
  | ok (target : Option String)
  deriving DecidableEq, Repr

/-- `showPlist`: fatal `name required` when no argument; otherwise
print the contents of the first catalog match (fatal if the file
read fails), and fall through silently when nothing matches.
`readOk p` is the outcome of `ioutil.ReadFile(pPath p)`. -/
def showPlist (readOk : String → Bool) (args : List String)
    (catalog : List String) : CmdResult :=
  if args.length < 3 then CmdResult.fatal "name required"
  else
    let name := args.getD 2 ""
    match catalog.find? (fun p => containsSub p name) with
    | some p =>
      if readOk p then CmdResult.ok (some p)
      else CmdResult.fatal "unable to read plist"
    | none => CmdResult.ok none

/-- `editPlist`: fatal `name required` when no argument; on the first
catalog match, fatal when `EDITOR` is unset, else launch the editor;
fall through silently when nothing matches. -/
def editPlist (editorSet : Bool) (args : List String)
    (catalog : List String) : CmdResult :=
  if args.length < 3 then CmdResult.fatal "name required"
  else
    let name := args.getD 2 ""
    match catalog.find? (fun p => containsSub p name) with
    | some p =>
      if editorSet then CmdResult.ok (some p)
      else CmdResult.fatal "EDITOR environment variable is not set"
    | none => CmdResult.ok none

/-- The filesystem as a partial map from path to file content. -/
abbrev FS := String → Option String

/-- `fileExists`: `os.Stat` succeeds. -/
def fsFileExists (fs : FS) (p : String) : Bool :=
  (fs p).isSome

/-- `fileCopy`: open `src` (error when missing), create/truncate `dst`
and write `src`'s content there. -/
def fileCopy (fs : FS) (src dst : String) : Except String FS :=
  match fs src with
  | none => Except.error "open failed"
  | some content => Except.ok (fun p => if p = dst then some content else fs p)

/-- The destination path `filepath.Join(launchAgentsPath, info.Name())`
computed by `installPlist`. -/
def installDest (home path : String) : String :=
  launchAgentsPath home ++ "/" ++ String.mk (basenameL path.data)

/-- `installPlist`: fatal when no argument or the source is missing;
when the destination exists, `os.Remove` it first (`removeOk` is that
call's outcome) and abort fatally when the removal fails; then
`fileCopy` source to destination (fatal on copy failure). -/
def installPlist (home : String) (removeOk : Bool) (fs : FS)
    (args : List String) : Except String FS :=
  if args.length < 3 then Except.error "path required"
  else
    let path := args.getD 2 ""
    if !fsFileExists fs path then Except.error "source file does not exist"
    else
      let newPath := installDest home path
      if fsFileExists fs newPath && !removeOk then
        Except.error "unable to delete existing plist"
      else
        let fs1 : FS :=
          if fsFileExists fs newPath then
            (fun p => if p = newPath then none else fs p)
          else fs
        match fileCopy fs1 path newPath with
        | Except.error _ => Except.error "failed to copy file"
        | Except.ok fs2 => Except.ok fs2

/-- One line of the `printStatus` loop over `launchctl list` output:
the line is split on tabs and field 2 is read unconditionally in both
branches; `none` models the out-of-range panic when the line has
fewer than three fields, `some b` means the line was processed and
`b` says whether it was printed. -/
def printStatusLine (installed : List String) (pattern : String)
    (line : String) : Option Bool :=
  match (splitOnCharL '\t' line.data).get? 2 with
  | none => none
  | some c2 =>
    if pattern.length > 0 then
      some (hasSubstrL pattern.data c2 && sliceIncludes installed (String.mk c2))
    else
      some (sliceIncludes installed (String.mk c2))

/-! ## Shape lemmas for the accumulating loops -/

/-- Folding `acc ++ [g x]` over a list is `map`. -/
theorem foldl_append_singleton {α β : Type} (g : α → β) :
    ∀ (l : List α) (init : List β),
      l.foldl (fun acc x => acc ++ [g x]) init = init ++ l.map g
  | [], init => by simp
  | x :: l, init => by
    simp only [List.foldl_cons, List.map_cons]
    rw [foldl_append_singleton g l (init ++ [g x]), List.append_assoc,
      List.singleton_append]

/-- Folding `acc ++ g x` factors through the empty accumulator. -/
theorem foldl_append_hom {α β : Type} (g : α → List β) :
    ∀ (l : List α) (init : List β),
      l.foldl (fun acc x => acc ++ g x) init =
        init ++ l.foldl (fun acc x => acc ++ g x) []
  | [], init => by simp
  | x :: l, init => by
    simp only [List.foldl_cons, List.nil_append]
    rw [foldl_append_hom g l (init ++ g x), foldl_append_hom g l (g x),
      List.append_assoc]

/-- The inner loop of `plistsAction` dispatches exactly on the catalog
entries containing the fragment, in catalog order. -/
theorem dispatchMatches_eq_filter (env : LaunchEnv) (action name : String) :
    ∀ cat : List String,
      dispatchMatches env action name cat [] =
        appAll env action (cat.filter (fun p => containsSub p name))
  | [] => rfl
  | p :: cat => by
    unfold dispatchMatches
    simp only [List.foldl_cons, List.nil_append]
    rw [foldl_append_hom]
    rw [show (List.foldl
        (fun acc2 plist =>
          acc2 ++ (if containsSub plist name then applyAction env action plist else []))
        [] cat) = dispatchMatches env action name cat [] from rfl]
    rw [dispatchMatches_eq_filter env action name cat]
    cases h : containsSub p name with
    | true => simp [List.filter_cons, h, appAll]
    | false => simp [List.filter_cons, h, appAll]

/-! ## Claim C1 -/

/-- Claim C1 (counterexample).  `findPlists` performs no sorting: when
the external `find` command emits `/r/b.plist` before `/r/a.plist`,
the returned catalog is `["b", "a"]`, which is not sorted
lexicographically. -/
theorem findPlists_not_sorted_cex :
    findPlists (some "/r/b.plist\n/r/a.plist") = ["b", "a"] ∧
    ¬ SortedLex (findPlists (some "/r/b.plist\n/r/a.plist")) := by
  constructor
  · decide
  · unfold SortedLex findPlists
    decide

/-- Claim C1 (amended).  `findPlists` returns the logical names in
exactly the order of the `find` output lines (basename with the first
`".plist"` occurrence removed, line by line): the result is a
deterministic function of the `find` output and preserves its order,
but it is sorted only when that output happens to be. -/
theorem findPlists_preserves_find_order (out : String) :
    findPlists (some out) = (splitOnCharL '\n' (trimL out.data)).map logicalNameL := by
  have h : findPlists (some out) =
      (splitOnCharL '\n' (trimL out.data)).foldl
        (fun plists line => plists ++ [logicalNameL line]) [] := rfl
  rw [h, foldl_append_singleton logicalNameL, List.nil_append]

/-! ## Claim C2 -/

/-- Claim C2 (code bug).  On a profile file whose lines are
`#comment`, a fully blank line, `web`, ` db `, the code does not skip
the blank line: it evaluates `line[0]` on the empty trimmed string, a
Go runtime panic (index out of range), modelled as `none` — it never
returns `["web", "db"]`. -/
theorem readProfile_blank_line_panics :
    readProfile (some "#comment\n\nweb\n db \n") = none := by decide

/-! ## Claim C3 -/

/-- Claim C3 (counterexample).  With catalog `["web"]` and fragment
`"xyz"` (no match), `showPlist` and `editPlist` return normally with
no action and no error (`CmdResult.ok none`, process exit 0) — there
is no "not found" failure and no non-zero exit. -/
theorem show_edit_no_match_cex :
    showPlist (fun _ => true) ["lunchy", "show", "xyz"] ["web"] = CmdResult.ok none ∧
    editPlist true ["lunchy", "show", "xyz"] ["web"] = CmdResult.ok none :=
  ⟨by decide, by decide⟩

/-- Claim C3 (amended).  For every fragment that matches no catalog
entry, `showPlist` and `editPlist` fall through silently: no action is
taken, no error is reported, and the process exits 0.  The only fatal
path of these handlers besides a failed read or missing editor is the
missing-argument check. -/
theorem show_edit_no_match_silent (readOk : String → Bool) (editorSet : Bool)
    (args catalog : List String) (hlen : ¬ args.length < 3)
    (hnm : ∀ p ∈ catalog, containsSub p (args.getD 2 "") = false) :
    showPlist readOk args catalog = CmdResult.ok none ∧
    editPlist editorSet args catalog = CmdResult.ok none := by
  have hfind : catalog.find? (fun p => containsSub p (args.getD 2 "")) = none := by
    rw [List.find?_eq_none]
    intro p hp
    rw [hnm p hp]
    simp
  refine ⟨?_, ?_⟩
  · unfold showPlist
    rw [if_neg hlen]
    simp only [hfind]
  · unfold editPlist
    rw [if_neg hlen]
    simp only [hfind]

/-- Witness for the amended C3 theorem at a concrete no-match input. -/
theorem show_edit_no_match_silent_witness :
    showPlist (fun _ => false) ["lunchy", "show", "xyz"] ["webx"] = CmdResult.ok none ∧
    editPlist false ["lunchy", "show", "xyz"] ["webx"] = CmdResult.ok none :=
  show_edit_no_match_silent (fun _ => false) false ["lunchy", "show", "xyz"]
    ["webx"] (by decide) (by decide)

/-! ## Claim C4 -/

/-- Claim C4 (confirmed).  The `restart` action is `stopDaemon`
followed by `startDaemon`; the start step is always attempted (its
outcome line always appears), and overall success (`started n`) is
reported exactly when the load succeeds — independently of the
unload's outcome, whose failure is swallowed (`stopDaemon` prints and
returns; nothing is propagated and the start is not aborted). -/
theorem restart_swallows_stop_failure (env : LaunchEnv) (n : String) :
    applyAction env "restart" n = stopDaemon env n ++ startDaemon env n ∧
    (Msg.started n ∈ applyAction env "restart" n ∨
      Msg.startFailed n ∈ applyAction env "restart" n) ∧
    (Msg.started n ∈ applyAction env "restart" n ↔ env.loadOk n = true) := by
  refine ⟨rfl, ?_, ?_⟩ <;>
    cases h1 : env.loadOk n <;> cases h2 : env.unloadOk n <;>
      simp [applyAction, startDaemon, stopDaemon, h1, h2]

/-! ## Claim C5 -/

/-- Claim C5 (counterexample).  When reading a present profile fails,
`readProfile` returns `nil` (the empty list) with no error: the result
is identical to that of a successfully read comments-only profile, so
the failure is silent, not a hard error propagated to the caller. -/
theorem readProfile_read_failure_cex :
    readProfile none = some [] ∧
    readProfile none = readProfile (some "#comment") :=
  ⟨by decide, by decide⟩

/-- Claim C5 (amended).  A failed read of a present profile is
silently mapped to the empty fragment list; no error reaches the
caller (the only abnormal outcome of `readProfile` is the empty-line
panic, which requires successfully read content). -/
theorem readProfile_read_failure_silent :
    readProfile none = some [] ∧ readProfile none ≠ none :=
  ⟨by decide, by decide⟩

/-! ## Claim C6 -/

/-- Claim C6 (confirmed).  A batch run over fragments `["a", "b"]`
where `"a"` matches no catalog entry and `"b"` matches exactly the
entries `p1` then `p2` applies the action to exactly `p1` and `p2`,
in catalog order; the zero-match fragment contributes no output at
all (no error, no action) and does not stop the batch. -/
theorem plistsAction_zero_match_silent (env : LaunchEnv)
    (catalog : List String) (action p1 p2 : String)
    (ha : catalog.filter (fun p => containsSub p "a") = [])
    (hb : catalog.filter (fun p => containsSub p "b") = [p1, p2]) :
    plistsAction env catalog ["a", "b"] action =
      applyAction env action p1 ++ applyAction env action p2 := by
  have h1 : dispatchMatches env action "a" catalog [] = [] := by
    rw [dispatchMatches_eq_filter, ha]
    rfl
  have h2 : dispatchMatches env action "b" catalog [] =
      applyAction env action p1 ++ applyAction env action p2 := by
    rw [dispatchMatches_eq_filter, hb]
    simp [appAll]
  show dispatchMatches env action "b" catalog
      (dispatchMatches env action "a" catalog []) =
    applyAction env action p1 ++ applyAction env action p2
  rw [h1, h2]

/-- An environment in which every load and unload succeeds. -/
def envAllOk : LaunchEnv := ⟨fun _ => true, fun _ => true⟩

/-- Witness for the C6 theorem: catalog `["web", "wob"]`, fragments
`["a", "b"]`, action `start`. -/
theorem plistsAction_zero_match_silent_witness :
    plistsAction envAllOk ["web", "wob"] ["a", "b"] "start" =
      applyAction envAllOk "start" "web" ++ applyAction envAllOk "start" "wob" :=
  plistsAction_zero_match_silent envAllOk ["web", "wob"] "start" "web" "wob"
    (by decide) (by decide)

/-! ## Claim C7 -/

/-- Claim C7 (counterexample).  First-match resolution returns the
first match in catalog order, which is the `find` output order, not
the lexicographic minimum: with `find` emitting `/r/zweb.plist` before
`/r/aweb.plist`, `getPlist` on fragment `"web"` returns `"zweb"`
although `"aweb"` also matches and is lexicographically smaller. -/
theorem getPlist_not_lex_smallest_cex :
    getPlist (some "/r/zweb.plist\n/r/aweb.plist") "web" = "zweb" ∧
    containsSub "aweb" "web" = true ∧
    strLtB "aweb" "zweb" = true :=
  ⟨by decide, by decide, by decide⟩

/-- Claim C7 (amended).  `firstMatch` (the loop of `getPlist`,
`showPlist`, `editPlist`) returns a matching entry, and whenever the
catalog is sorted lexicographically that entry is lexicographically
least among the matches; without the (never established) sorted
invariant only first-in-catalog-order holds. -/
theorem firstMatch_lex_smallest :
    ∀ (catalog : List String) (name p : String),
      SortedLex catalog → p ∈ catalog → containsSub p name = true →
      containsSub (firstMatch catalog name) name = true ∧
      strLeB (firstMatch catalog name) p = true
  | [], _, _, _, hp, _ => absurd hp (List.not_mem_nil _)
  | q :: rest, name, p, hs, hp, hm => by
    rw [SortedLex, List.pairwise_cons] at hs
    cases hq : containsSub q name with
    | true =>
      have hf : firstMatch (q :: rest) name = q := by
        simp [firstMatch, hq]
      rw [hf]
      refine ⟨hq, ?_⟩
      rcases List.mem_cons.mp hp with h | h
      · subst h
        simp [strLeB]
      · exact hs.1 p h
    | false =>
      have hf : firstMatch (q :: rest) name = firstMatch rest name := by
        simp [firstMatch, hq]
      rw [hf]
      have hp' : p ∈ rest := by
        rcases List.mem_cons.mp hp with h | h
        · subst h
          rw [hq] at hm
          cases hm
        · exact h
      exact firstMatch_lex_smallest rest name p hs.2 hp' hm

/-- Witness for the amended C7 theorem on the sorted catalog
`["aweb", "zweb"]` and fragment `"web"`. -/
theorem firstMatch_lex_smallest_witness :
    containsSub (firstMatch ["aweb", "zweb"] "web") "web" = true ∧
    strLeB (firstMatch ["aweb", "zweb"] "web") "zweb" = true :=
  firstMatch_lex_smallest ["aweb", "zweb"] "web" "zweb"
    (by unfold SortedLex; decide) (by decide) (by decide)

/-! ## Claim C8 -/

/-- Claim C8 (confirmed).  With an existing source file: when the
destination exists and its deletion fails, `installPlist` aborts
fatally (`unable to delete existing plist`, exit 1) without producing
any filesystem update — in particular nothing is written to the
destination; when the deletion succeeds (or the destination is
absent), the copy runs and the final filesystem holds exactly the
source's content at the destination path (the filesystem maps each
path to at most one file, so exactly one file is left there). -/
theorem installPlist_delete_then_copy (home : String) (fs : FS) (path c : String)
    (hsrc : fs path = some c) :
    (fsFileExists fs (installDest home path) = true →
      installPlist home false fs ["lunchy", "install", path] =
        Except.error "unable to delete existing plist") ∧
    (path ≠ installDest home path →
      ∃ fs2, installPlist home true fs ["lunchy", "install", path] = Except.ok fs2 ∧
        fs2 (installDest home path) = some c) := by
  have hex : fsFileExists fs path = true := by simp [fsFileExists, hsrc]
  constructor
  · intro hdest
    simp [installPlist, hex, hdest]
  · intro hne
    by_cases hdest : fsFileExists fs (installDest home path) = true
    · simp [installPlist, fileCopy, hex, hdest, hsrc, hne]
    · simp only [Bool.not_eq_true] at hdest
      simp [installPlist, fileCopy, hex, hdest, hsrc, hne]

/-- A concrete filesystem: the source `/tmp/a.plist` holds `new`, the
destination already holds `old`. -/
def fsW : FS := fun p =>
  if p = "/tmp/a.plist" then some "new"
  else if p = installDest "/h" "/tmp/a.plist" then some "old"
  else none

/-- Witness for the C8 theorem: failed deletion aborts; successful
deletion leaves the new content at the destination. -/
theorem installPlist_delete_then_copy_witness :
    installPlist "/h" false fsW ["lunchy", "install", "/tmp/a.plist"] =
        Except.error "unable to delete existing plist" ∧
    ∃ fs2, installPlist "/h" true fsW ["lunchy", "install", "/tmp/a.plist"] =
        Except.ok fs2 ∧
      fs2 (installDest "/h" "/tmp/a.plist") = some "new" := by
  have h := installPlist_delete_then_copy "/h" fsW "/tmp/a.plist" "new" (by decide)
  exact ⟨h.1 (by decide), h.2 (by decide)⟩

/-! ## Claim C10 -/

/-- Claim C10 (confirmed).  The per-line processing of `printStatus`
is defined (does not panic) exactly when the line has at least three
tab-separated fields; with fewer fields the unconditional `chunks[2]`
access is out of bounds in either branch — there is no guard or
fallback. -/
theorem printStatusLine_needs_three_fields (installed : List String)
    (pattern line : String) :
    (printStatusLine installed pattern line).isSome = true ↔
      3 ≤ (splitOnCharL '\t' line.data).length := by
  unfold printStatusLine
  cases h : (splitOnCharL '\t' line.data).get? 2 with
  | none =>
    rw [List.get?_eq_none] at h
    constructor
    · intro hs
      simp at hs
    · intro hlen
      exact absurd hlen (by omega)
  | some c2 =>
    have hlt : 2 < (splitOnCharL '\t' line.data).length := by
      by_contra hc
      rw [not_lt, ← List.get?_eq_none] at hc
      rw [hc] at h
      cases h
    constructor
    · intro _
      omega
    · intro _
      by_cases hp : pattern.length > 0 <;> simp [hp]

/-! ## Claim C9 -/

/-- `takeWhile` keeps a satisfying block and stops at the first
failing element. -/
theorem takeWhile_append_stop (p : Char → Bool) :
    ∀ (l₁ : List Char), (∀ c ∈ l₁, p c = true) →
      ∀ (a : Char), p a = false → ∀ (l₂ : List Char),
        (l₁ ++ a :: l₂).takeWhile p = l₁
  | [], _, a, ha, l₂ => by
    simp [List.takeWhile_cons, ha]
  | c :: l₁, h, a, ha, l₂ => by
    have hc : p c = true := h c (List.mem_cons_self c l₁)
    simp only [List.cons_append, List.takeWhile_cons, hc, if_true]
    rw [takeWhile_append_stop p l₁ (fun x hx => h x (List.mem_cons_of_mem c hx)) a ha l₂]

/-- `filepath.Base` of `root ++ "/" ++ s ++ ".plist"` is
`s ++ ".plist"` for nonempty slash-free `s`. -/
theorem basenameL_root_file (rootD s : List Char)
    (hslash : ∀ c ∈ s, (c == '/') = false) :
    basenameL (rootD ++ '/' :: (s ++ plistExt)) = s ++ plistExt := by
  have hall : ∀ c ∈ plistExt.reverse ++ s.reverse, (c != '/') = true := by
    intro c hc
    rcases List.mem_append.mp hc with h | h
    · have hm : c ∈ plistExt := List.mem_reverse.mp h
      have hc6 : c = '.' ∨ c = 'p' ∨ c = 'l' ∨ c = 'i' ∨ c = 's' ∨ c = 't' := by
        simpa [plistExt] using hm
      rcases hc6 with rfl | rfl | rfl | rfl | rfl | rfl <;> decide
    · have hm : c ∈ s := List.mem_reverse.mp h
      have h2 := hslash c hm
      simp [bne, h2]
  have hrev : (rootD ++ '/' :: (s ++ plistExt)).reverse
      = (plistExt.reverse ++ s.reverse) ++ '/' :: rootD.reverse := by
    simp [List.reverse_append, List.reverse_cons, List.append_assoc]
  have hdrop : ((rootD ++ '/' :: (s ++ plistExt)).reverse.dropWhile (fun c => c == '/'))
      = (rootD ++ '/' :: (s ++ plistExt)).reverse := by
    rw [hrev]
    rw [show plistExt.reverse = ['t', 's', 'i', 'l', 'p', '.'] from rfl]
    simp only [List.cons_append, List.dropWhile_cons]
    simp
  unfold basenameL
  rw [if_neg (by simp)]
  rw [hdrop]
  rw [if_neg (by simp)]
  rw [hrev,
    takeWhile_append_stop (fun c => c != '/') (plistExt.reverse ++ s.reverse)
      hall '/' (by decide) rootD.reverse]
  simp [List.reverse_append]

/-- A strict prefix is still a prefix after dropping the last
element. -/
theorem prefix_dropLast_of_lt {pat l : List Char} (h : pat <+: l)
    (hlt : pat.length < l.length) : pat <+: l.dropLast := by
  obtain ⟨r, rfl⟩ := h
  have hr : r ≠ [] := by
    intro h0
    subst h0
    simp at hlt
  rw [List.dropLast_append_of_ne_nil _ hr]
  exact ⟨r.dropLast, rfl⟩

/-- `hasSubstrL` holds whenever the pattern prefixes some suffix. -/
theorem hasSubstrL_of_occurrence (pat : List Char) :
    ∀ (l t : List Char), t <:+ l → pat <+: t → hasSubstrL pat l = true
  | [], t, hsuf, hpre => by
    rw [List.suffix_nil] at hsuf
    subst hsuf
    rw [List.prefix_nil] at hpre
    subst hpre
    rfl
  | c :: l, t, hsuf, hpre => by
    unfold hasSubstrL
    rcases List.suffix_cons_iff.mp hsuf with h | h
    · subst h
      have hp : pat.isPrefixOf (c :: l) = true :=
        List.isPrefixOf_iff_prefix.mpr hpre
      simp [hp]
    · rw [hasSubstrL_of_occurrence pat l t h hpre]
      simp

/-- `hasSubstrL` on a tail, from failure on the whole list. -/
theorem hasSubstrL_tail_false {pat : List Char} {c : Char} {l : List Char}
    (h : hasSubstrL pat (c :: l) = false) : hasSubstrL pat l = false := by
  unfold hasSubstrL at h
  exact (Bool.or_eq_false_iff.mp h).2

/-- Removing the first occurrence of `pat` from `s ++ pat` gives back
`s`, provided `pat` occurs nowhere before the final position (no
occurrence inside `s ++ pat.dropLast`). -/
theorem removeFirstL_append (pat : List Char) (hpat : pat ≠ []) :
    ∀ (s : List Char), hasSubstrL pat (s ++ pat.dropLast) = false →
      removeFirstL pat (s ++ pat) = s
  | [], _ => by
    cases pat with
    | nil => exact absurd rfl hpat
    | cons q pt =>
      show removeFirstL (q :: pt) (q :: pt) = []
      have hp : (q :: pt).isPrefixOf (q :: pt) = true :=
        List.isPrefixOf_iff_prefix.mpr (List.prefix_refl _)
      simp [removeFirstL, hp, List.drop_length]
  | c :: s, H => by
    have H' : hasSubstrL pat (s ++ pat.dropLast) = false :=
      hasSubstrL_tail_false
        (show hasSubstrL pat (c :: (s ++ pat.dropLast)) = false from H)
    show removeFirstL pat (c :: (s ++ pat)) = c :: s
    cases hb : pat.isPrefixOf (c :: (s ++ pat)) with
    | true =>
      exfalso
      have hpre : pat <+: c :: (s ++ pat) := List.isPrefixOf_iff_prefix.mp hb
      have hlt : pat.length < (c :: (s ++ pat)).length := by
        simp only [List.length_cons, List.length_append]
        omega
      have h2 := prefix_dropLast_of_lt hpre hlt
      have h3 : (c :: (s ++ pat)).dropLast = c :: (s ++ pat.dropLast) := by
        rw [show c :: (s ++ pat) = (c :: s) ++ pat from rfl,
          List.dropLast_append_of_ne_nil _ hpat]
        rfl
      rw [h3] at h2
      have h4 := hasSubstrL_of_occurrence pat (c :: (s ++ pat.dropLast))
        (c :: (s ++ pat.dropLast)) (List.suffix_refl _) h2
      rw [show ((c :: s) ++ pat.dropLast) = c :: (s ++ pat.dropLast) from rfl] at H
      rw [H] at h4
      cases h4
    | false =>
      unfold removeFirstL
      rw [if_neg (by simp [hb])]
      rw [removeFirstL_append pat hpat s H']

/-- Claim C9 (counterexample).  The catalog scan is recursive: a
descriptor file in a subdirectory of the root is discovered (here
`sub/x.plist`, logical name `x`), but recomputing the path from that
logical name with `pPath` yields the file directly under the root —
not the original file's path, so name → path is not the inverse of
the discovery derivation. -/
theorem pPath_roundtrip_subdir_cex :
    findPlists (some "/h/Library/LaunchAgents/sub/x.plist") = ["x"] ∧
    pPath "/h" "x" ≠ "/h/Library/LaunchAgents/sub/x.plist" :=
  ⟨by decide, by decide⟩

/-- Claim C9 (amended).  `pPath` is injective for a fixed root
(distinct logical names yield distinct paths), and the name ↔ path
round trip holds exactly for descriptor files lying directly in the
root directory whose name is nonempty, slash-free, and contains the
extension `".plist"` only as its final suffix: for such a file
(`pPath home n`) the derived logical name is `n` and the recomputed
path is the original path.  Files discovered in subdirectories
break the round trip (see the counterexample). -/
theorem pPath_name_bijection (home n₁ n₂ n : String)
    (hslash : ∀ c ∈ n.data, (c == '/') = false)
    (hocc : hasSubstrL plistExt (n.data ++ plistExt.dropLast) = false) :
    (pPath home n₁ = pPath home n₂ → n₁ = n₂) ∧
    logicalName (pPath home n) = n ∧
    pPath home (logicalName (pPath home n)) = pPath home n := by
  have hdata : ∀ m : String, (pPath home m).data
      = (launchAgentsPath home).data ++ '/' :: (m.data ++ plistExt) := by
    intro m
    simp [pPath, String.data_append, plistExt,
      show ("/" : String).data = ['/'] from rfl,
      show (".plist" : String).data = plistExt from rfl]
  have hlog : logicalName (pPath home n) = n := by
    unfold logicalName logicalNameL
    rw [hdata n, basenameL_root_file _ _ hslash,
      removeFirstL_append plistExt (by decide) n.data hocc]
  refine ⟨?_, hlog, by rw [hlog]⟩
  intro h
  have hd := congrArg String.data h
  rw [hdata n₁, hdata n₂] at hd
  have h2 := List.append_cancel_left hd
  injection h2 with _ h3
  have h4 := List.append_cancel_right h3
  exact String.ext h4

/-- Witness for the amended C9 theorem at root `/h` and name `web`. -/
theorem pPath_name_bijection_witness :
    (pPath "/h" "aweb" = pPath "/h" "zweb" → "aweb" = "zweb") ∧
    logicalName (pPath "/h" "web") = "web" ∧
    pPath "/h" (logicalName (pPath "/h" "web")) = pPath "/h" "web" :=
  pPath_name_bijection "/h" "aweb" "zweb" "web" (by decide) (by decide)

end Lunchy
